import Mathlib

/- Shallow embedding of the Coinpon server (src/main.py and src/ponmanager.py).

   The SQLite database is modelled as one namespace of named tables; each
   table keeps its column list, its NOT-NULL-without-default columns, its
   column defaults, and its rows, where a row is an ordered list of
   column/value cells.  This lets the per-user inventory tables and the
   shared `users` credentials table live in the same namespace, exactly as
   in the database (src/ponmanager.py builds its SQL with the raw username
   as the table name).

   The two module-level PONDATA dictionaries (main.load_pons and
   ponmanager.init are textually identical loaders) are modelled as one
   association list rebuilt by `loadPons`.  `secrets.choice` is modelled by
   an explicit random index reduced modulo the list length: on an empty
   list it has no result (the IndexError branch).  bcrypt hashing is
   idealised as an injective tag together with its matching check.

   Transaction semantics follow Python sqlite3's default mode: DDL
   statements (CREATE TABLE, ALTER TABLE) execute outside the implicit
   transaction and persist immediately, while the INSERT and the UPDATE of
   the pull are grouped in one implicit transaction and either both persist
   (commit) or neither does (an exception closes the connection and rolls
   the transaction back). -/

namespace Coinpon

/-- One SQLite cell value: NULL, a text value, or an integer. -/
inductive Val where
  | null
  | s (v : String)
  | i (v : Int)
deriving DecidableEq

/-- A row is an ordered list of column/value cells. -/
abbrev Row := List (String × Val)

/-- First-match lookup in an association list (Python dict lookup / SQL
column access). -/
def lookupKey {α : Type} (k : String) : List (String × α) → Option α
  | [] => none
  | (k2, v) :: rest => if k2 = k then some v else lookupKey k rest

/-- Overwrite-or-append assignment in an association list (Python dict
assignment preserves insertion order). -/
def setKey {α : Type} (k : String) (v : α) : List (String × α) → List (String × α)
  | [] => [(k, v)]
  | (k2, v2) :: rest => if k2 = k then (k2, v) :: rest else (k2, v2) :: setKey k v rest

/-- A SQLite table: column names in order, the columns declared NOT NULL
without a default, the column defaults, and the stored rows. -/
structure Table where
  cols : List String
  required : List String
  defaults : List (String × Val)
  rows : List Row
deriving DecidableEq

/-- The row actually stored by an INSERT naming only some columns: every
column takes the supplied value, else its default, else NULL. -/
def Table.mkRow (t : Table) (vals : Row) : Row :=
  t.cols.map (fun c => (c, ((lookupKey c vals).orElse (fun _ => lookupKey c t.defaults)).getD Val.null))

/-- INSERT: fails (constraint error) when a NOT-NULL column without default
is missing or NULL; otherwise appends the completed row. -/
def Table.insertRow (t : Table) (vals : Row) : Option Table :=
  if t.required.all (fun c =>
      match lookupKey c vals with
      | some Val.null => false
      | some _ => true
      | none => false)
  then some { t with rows := t.rows ++ [t.mkRow vals] }
  else none

/-- The database: a namespace of named tables. -/
structure DB where
  tables : List (String × Table)
deriving DecidableEq

def DB.getTable (db : DB) (name : String) : Option Table :=
  lookupKey name db.tables

def DB.setTable (db : DB) (name : String) (t : Table) : DB :=
  ⟨setKey name t db.tables⟩

/-- The users table created by main.init_db: id INTEGER PRIMARY KEY
AUTOINCREMENT, username / password_hash / token TEXT NOT NULL, three
timestamp columns with defaults, coins INTEGER DEFAULT 3, tokens INTEGER
DEFAULT 0. -/
def usersSchema : Table :=
  { cols := ["id", "username", "password_hash", "token", "created_at",
             "last_heartbeat", "active_for", "coins", "tokens"]
  , required := ["username", "password_hash", "token"]
  , defaults := [("coins", Val.i 3), ("tokens", Val.i 0),
                 ("created_at", Val.s "CURRENT_TIMESTAMP"),
                 ("last_heartbeat", Val.s "CURRENT_TIMESTAMP"),
                 ("active_for", Val.s "CURRENT_TIMESTAMP")]
  , rows := [] }

/-- main.init_db: CREATE TABLE IF NOT EXISTS users. -/
def init_db (db : DB) : DB :=
  match db.getTable "users" with
  | some _ => db
  | none => db.setTable "users" usersSchema

/-- Predicate of the SQL filter WHERE username = user on a row. -/
def rowHasUser (user : String) (r : Row) : Bool :=
  lookupKey "username" r == some (Val.s user)

/-- main.user_exists: SELECT 1 FROM users WHERE username = ?. -/
def user_exists (db : DB) (user : String) : Bool :=
  match db.getTable "users" with
  | none => false
  | some t => t.rows.any (rowHasUser user)

/-- bcrypt.hashpw, idealised: an injective tag of the plaintext.  The
development only uses that checkpw recognises exactly the hashed
plaintext. -/
def hashpw (tok : String) : String := "bcrypt$" ++ tok

/-- bcrypt.checkpw against a stored hash, idealised to match `hashpw`. -/
def checkpw (tok h : String) : Bool := h == hashpw tok

/-- main.create_user: INSERT INTO users (username, password_hash, token).
The token hash argument is the bcrypt hash of the initial random token. -/
def create_user (db : DB) (username passHash tokHash : String) : Option DB :=
  match db.getTable "users" with
  | none => none
  | some t =>
    (t.insertRow [("username", Val.s username),
                  ("password_hash", Val.s passHash),
                  ("token", Val.s tokHash)]).map (fun t2 => db.setTable "users" t2)

/-- Username validation of main.register: length 3..16 and the anchored
regex [a-zA-Z0-9_]+. -/
def validUsername (u : String) : Bool :=
  3 ≤ u.length && u.length ≤ 16 && u.data.all (fun c => c.isAlphanum || c == '_')

/-- Password validation of main.register: length 8..32. -/
def validPassword (p : String) : Bool :=
  8 ≤ p.length && p.length ≤ 32

/-- main.register on the database: validate, reject an existing username,
then create the user (with the default coin balance of 3). -/
def registerUser (db : DB) (username password passHash tokHash : String) : DB :=
  if validUsername username && validPassword password then
    if user_exists db username then db
    else (create_user db username passHash tokHash).getD db
  else db

/-- Does a stored row's token hash accept the presented token?  Mirrors the
bcrypt.checkpw call in main.identify_user. -/
def tokenMatches (tok : String) (r : Row) : Bool :=
  match lookupKey "token" r with
  | some (Val.s h) => checkpw tok h
  | _ => false

/-- main.identify_user: scan SELECT username, token FROM users in row order
and return the first username whose stored token hash matches. -/
def identify_user (db : DB) (tok : String) : Option String :=
  match db.getTable "users" with
  | none => none
  | some t =>
    match t.rows.find? (tokenMatches tok) with
    | none => none
    | some r =>
      match lookupKey "username" r with
      | some (Val.s u) => some u
      | _ => none

/-- Replace every cell of column k0 in a row (UPDATE ... SET k0 = ...). -/
def setField (k0 : String) (g : Val → Val) (r : Row) : Row :=
  r.map (fun p => if p.1 = k0 then (k0, g p.2) else p)

/-- The row update of main.generate_token: UPDATE users SET token = hash
WHERE username = user, applied to one row. -/
def tokenUpdateRow (user tok : String) (r : Row) : Row :=
  if rowHasUser user r then setField "token" (fun _ => Val.s (hashpw tok)) r else r

/-- main.generate_token on the database: store the bcrypt hash of the fresh
token tok in the user's single token slot. -/
def generate_token (db : DB) (user tok : String) : DB :=
  match db.getTable "users" with
  | none => db
  | some t => db.setTable "users" { t with rows := t.rows.map (tokenUpdateRow user tok) }

/-- A variety entry of a card's varieties list (meta.json). -/
structure Variety where
  id : String
deriving DecidableEq

/-- A card entry of a pon's cards list; varieties is the optional
"varieties" key. -/
structure Card where
  id : String
  varieties : Option (List Variety)
deriving DecidableEq

/-- A parsed pon meta.json: its id, the optional "cost" key, and its cards
list. -/
structure Pon where
  id : String
  cost : Option Int
  cards : List Card
deriving DecidableEq

/-- meta_json.get("cost", 1). -/
def Pon.costD (p : Pon) : Int := p.cost.getD 1

/-- One folder of the pons directory: either it has no meta.json, or the
file is malformed (skipped), or it parses to a pon. -/
structure PonFolder where
  name : String
  meta : Option (Option Pon)
deriving DecidableEq

/-- The catalog loader shared by main.load_pons and ponmanager.init (the
two functions are textually identical): scan the folders, parse each
meta.json, silently skip failures, and key the result by the pon's id. -/
def loadPons (dir : List PonFolder) : List (String × Pon) :=
  dir.foldl (fun m f =>
    match f.meta with
    | some (some p) => setKey p.id p m
    | _ => m) []

/-- secrets.choice: an unbiased draw modelled by an explicit index reduced
modulo the list length; no result on an empty list (IndexError). -/
def choice {α : Type} (l : List α) (r : Nat) : Option α :=
  l.get? (r % l.length)

/-- The in-memory server state: the PONDATA pon mapping and the database. -/
structure ServerState where
  pondata : List (String × Pon)
  db : DB
deriving DecidableEq

/-- The result of one call to ponmanager.pull: a returned drawn reference,
the Python value None, or a raised exception. -/
inductive PullOutcome where
  | ok (ref : String)
  | noResult
  | err
deriving DecidableEq

/-- The empty inventory table created by CREATE TABLE IF NOT EXISTS
(id INTEGER PRIMARY KEY). -/
def invSchema : Table :=
  { cols := ["id"], required := [], defaults := [], rows := [] }

/-- The outcome of pull's first phase (first database connection): the
catalog lookup, the balance read, and the balance check. -/
inductive CheckResult where
  | ponNotFound
  | userNotFound
  | insufficient
  | typeErr
  | pass (p : Pon) (coins : Int)
deriving DecidableEq

/-- SELECT coins FROM users WHERE username = ? followed by fetchone. -/
def selectCoins (t : Table) (user : String) : Option Val :=
  (t.rows.find? (rowHasUser user)).map (fun r => (lookupKey "coins" r).getD Val.null)

/-- Phase one of ponmanager.pull, after the catalog reload: the `pon not in
PONDATA` check, the coins SELECT, and the `coins < cost` check.  A missing
users table or a non-integer coins cell raises (typeErr). -/
def pullCheck (s : ServerState) (user pon : String) : CheckResult :=
  match lookupKey pon s.pondata with
  | none => CheckResult.ponNotFound
  | some p =>
    match s.db.getTable "users" with
    | none => CheckResult.typeErr
    | some ut =>
      match selectCoins ut user with
      | none => CheckResult.userNotFound
      | some (Val.i coins) =>
        if coins < p.costD then CheckResult.insufficient else CheckResult.pass p coins
      | some _ => CheckResult.typeErr

/-- The debit of one row: UPDATE users SET coins = coins - cost WHERE
username = user (SQL arithmetic on a non-integer cell yields NULL). -/
def debitRow (user : String) (cost : Int) (r : Row) : Row :=
  if rowHasUser user r then
    setField "coins" (fun v => match v with | Val.i n => Val.i (n - cost) | _ => Val.null) r
  else r

/-- UPDATE users SET coins = coins - cost WHERE username = user. -/
def Table.debit (t : Table) (user : String) (cost : Int) : Table :=
  { t with rows := t.rows.map (debitRow user cost) }

/-- The committed tail of ponmanager.pull: INSERT the drawn reference into
the table named by the raw username, debit the cost, commit.  The INSERT
and the UPDATE form one implicit transaction: on a constraint error neither
persists and the exception propagates. -/
def finishPull (s : ServerState) (user pon : String) (cost : Int) (ref : String) :
    PullOutcome × ServerState :=
  match s.db.getTable user with
  | none => (PullOutcome.err, s)
  | some t =>
    match t.insertRow [(pon, Val.s ref)] with
    | none => (PullOutcome.err, s)
    | some t2 =>
      let db2 := s.db.setTable user t2
      match db2.getTable "users" with
      | none => (PullOutcome.err, s)
      | some ut => (PullOutcome.ok ref, { s with db := db2.setTable "users" (ut.debit user cost) })

/-- The draw of ponmanager.pull after the DDL statements: secrets.choice on
the cards list (IndexError on an empty list), the optional variety draw,
the reference string, and the committed INSERT/UPDATE pair. -/
def pullDraw (s2 : ServerState) (user pon : String) (p : Pon) (c1 c2 : Nat) :
    PullOutcome × ServerState :=
  match choice p.cards c1 with
  | none => (PullOutcome.err, s2)
  | some card =>
    match card.varieties with
    | none => finishPull s2 user pon p.costD card.id
    | some vs =>
      match choice vs c2 with
      | none => (PullOutcome.err, s2)
      | some v => finishPull s2 user pon p.costD (card.id ++ "/" ++ v.id)

/-- The table shape produced by the PRAGMA column check and conditional
ALTER TABLE ADD COLUMN. -/
def ddlTable (t : Table) (pon : String) : Table :=
  if pon ∈ t.cols then t else { t with cols := t.cols ++ [pon] }

/-- Phase two of ponmanager.pull (second database connection): CREATE TABLE
IF NOT EXISTS on the raw username, the PRAGMA column check and ALTER TABLE
ADD COLUMN for the pon (both DDL statements persist immediately), then the
random draw and the committed INSERT/UPDATE pair.  c1 and c2 are the random
indices of the two secrets.choice draws. -/
def pullWrite (s : ServerState) (user pon : String) (p : Pon) (c1 c2 : Nat) :
    PullOutcome × ServerState :=
  let db1 := match s.db.getTable user with
    | some _ => s.db
    | none => s.db.setTable user invSchema
  let t := (db1.getTable user).getD invSchema
  let db2 := if pon ∈ t.cols then db1 else db1.setTable user { t with cols := t.cols ++ [pon] }
  pullDraw { s with db := db2 } user pon p c1 c2

/-- ponmanager.pull: first `await init()` rescans the pons directory and
rebuilds PONDATA, then phase one checks run on the first connection, then
phase two writes run on the second connection. -/
def pull (dir : List PonFolder) (s : ServerState) (user pon : String) (c1 c2 : Nat) :
    PullOutcome × ServerState :=
  let s1 := { s with pondata := loadPons dir }
  match pullCheck s1 user pon with
  | CheckResult.pass p _ => pullWrite s1 user pon p c1 c2
  | CheckResult.typeErr => (PullOutcome.err, s1)
  | _ => (PullOutcome.noResult, s1)

/-- Observer: the stored coin balance of a user. -/
def ServerState.coinsOf (s : ServerState) (user : String) : Option Val :=
  match s.db.getTable "users" with
  | none => none
  | some t => selectCoins t user

/-- Observer: the rows of the table stored under a name (the inventory
ledger of a user, when the name is a username). -/
def ServerState.invRows (s : ServerState) (name : String) : List Row :=
  match s.db.getTable name with
  | none => []
  | some t => t.rows

/-- The request events that mutate the database: a registration, a
successful login (which calls generate_token with the fresh token), and a
pull request (which rescans the directory passed here). -/
inductive Event where
  | reg (username password passHash tokHash : String)
  | login (username tok : String)
  | pullReq (dir : List PonFolder) (user pon : String) (c1 c2 : Nat)

/-- Apply one request event to the server state. -/
def applyEvent (s : ServerState) : Event → ServerState
  | Event.reg u pw ph th => { s with db := registerUser s.db u pw ph th }
  | Event.login u tok => { s with db := generate_token s.db u tok }
  | Event.pullReq dir u p c1 c2 => (pull dir s u p c1 c2).2

/-- The startup state of main.lifespan: init_db on an empty database, then
load_pons. -/
def initState (dir0 : List PonFolder) : ServerState :=
  { pondata := loadPons dir0, db := init_db ⟨[]⟩ }

/-- Run a sequence of request events. -/
def runEvents (s : ServerState) (es : List Event) : ServerState :=
  es.foldl applyEvent s

/-- Observer: the rows of the users credentials table. -/
def usersRows (db : DB) : List Row :=
  match db.getTable "users" with
  | none => []
  | some t => t.rows

/-- Observer: the username cell of a row. -/
def rowUser (r : Row) : Option Val := lookupKey "username" r

/-- Concrete pon: one card, no varieties, cost 1. -/
def ponBasic : Pon := { id := "basic", cost := some 1, cards := [{ id := "c1", varieties := none }] }

/-- Concrete pon: one card with one variety, cost 1. -/
def ponVar : Pon :=
  { id := "varpon", cost := some 1
  , cards := [{ id := "cv", varieties := some [{ id := "v1" }] }] }

/-- Concrete pon: cost 5, above the default balance of 3. -/
def ponCostly : Pon := { id := "costly", cost := some 5, cards := [{ id := "c1", varieties := none }] }

/-- Concrete pon with an empty cards list. -/
def ponEmpty : Pon := { id := "empty", cost := some 1, cards := [] }

/-- Concrete pon whose cost 3 equals the default balance, so that a user
can afford exactly one pull. -/
def ponRace : Pon := { id := "race", cost := some 3, cards := [{ id := "c1", varieties := none }] }

/-- A pons directory holding all five concrete pons. -/
def dirAll : List PonFolder :=
  [ { name := "f1", meta := some (some ponBasic) }
  , { name := "f2", meta := some (some ponVar) }
  , { name := "f3", meta := some (some ponCostly) }
  , { name := "f4", meta := some (some ponEmpty) }
  , { name := "f5", meta := some (some ponRace) } ]

/-- Database after startup and one registration of alice (coins 3). -/
def db0 : DB := (create_user (init_db ⟨[]⟩) "alice" "ph" "th").getD ⟨[]⟩

/-- The users table of db0. -/
def usersT0 : Table := (db0.getTable "users").getD invSchema

/-- db0 with the username users additionally registered. -/
def dbU : DB := (create_user db0 "users" "ph2" "th2").getD ⟨[]⟩

/-- The users table of dbU. -/
def usersTU : Table := (dbU.getTable "users").getD invSchema

/-- Database with alice and bob registered, holding the hashes of the
tokens tA and tB. -/
def dbAuth : DB :=
  (create_user ((create_user (init_db ⟨[]⟩) "alice" "phA" (hashpw "tA")).getD ⟨[]⟩)
    "bob" "phB" (hashpw "tB")).getD ⟨[]⟩

/-- The users table of dbAuth. -/
def usersTAuth : Table := (dbAuth.getTable "users").getD invSchema

/-- Server state whose in-memory catalog was loaded from dirAll at startup
(used by the claims about reloading and about concurrency). -/
def sStart : ServerState := { pondata := loadPons dirAll, db := db0 }

/-- A concrete request trace: register alice, then pull the basic pon. -/
def esTrace : List Event :=
  [Event.reg "alice" "password1" "ph" "th", Event.pullReq dirAll "alice" "basic" 0 0]

/-- The single users row left by the concrete trace. -/
def traceRow : Row :=
  ((usersRows ((runEvents (initState dirAll) esTrace).db)).head?).getD []

/-- Well-formedness of the database, an inductive invariant of the request
semantics: the users credentials table exists with its three NOT-NULL
columns, the coins default 3, a username column, pairwise distinct
username cells, and nonnegative coin balances. -/
def WF (db : DB) : Prop :=
  ∃ ut, db.getTable "users" = some ut ∧
    ut.required = ["username", "password_hash", "token"] ∧
    lookupKey "coins" ut.defaults = some (Val.i 3) ∧
    "username" ∈ ut.cols ∧
    (ut.rows.map rowUser).Nodup ∧
    ∀ r ∈ ut.rows, ∀ n : Int, lookupKey "coins" r = some (Val.i n) → 0 ≤ n

section BasicLemmas

theorem lookupKey_nil {α : Type} (k : String) :
    lookupKey k ([] : List (String × α)) = none := rfl

theorem lookupKey_cons {α : Type} (k k2 : String) (v : α) (l : List (String × α)) :
    lookupKey k ((k2, v) :: l) = if k2 = k then some v else lookupKey k l := rfl

theorem setKey_nil {α : Type} (k : String) (v : α) :
    setKey k v ([] : List (String × α)) = [(k, v)] := rfl

theorem setKey_cons {α : Type} (k k2 : String) (v v2 : α) (l : List (String × α)) :
    setKey k v ((k2, v2) :: l) =
      if k2 = k then (k2, v) :: l else (k2, v2) :: setKey k v l := rfl

theorem setField_nil (k0 : String) (g : Val → Val) : setField k0 g [] = [] := rfl

theorem setField_cons (k0 : String) (g : Val → Val) (k3 : String) (v3 : Val) (l : Row) :
    setField k0 g ((k3, v3) :: l) =
      (if k3 = k0 then (k0, g v3) else (k3, v3)) :: setField k0 g l := rfl

theorem lookupKey_setKey_self {α : Type} (k : String) (v : α) (l : List (String × α)) :
    lookupKey k (setKey k v l) = some v := by
  induction l with
  | nil =>
    rw [setKey_nil, lookupKey_cons, if_pos rfl]
  | cons p rest ih =>
    obtain ⟨k2, v2⟩ := p
    rw [setKey_cons]
    by_cases h : k2 = k
    · rw [if_pos h, lookupKey_cons, if_pos h]
    · rw [if_neg h, lookupKey_cons, if_neg h, ih]

theorem lookupKey_setKey_ne {α : Type} {k k2 : String} (h : k2 ≠ k) (v : α)
    (l : List (String × α)) : lookupKey k2 (setKey k v l) = lookupKey k2 l := by
  induction l with
  | nil =>
    rw [setKey_nil, lookupKey_cons, if_neg (Ne.symm h), lookupKey_nil]
  | cons p rest ih =>
    obtain ⟨k3, v3⟩ := p
    rw [setKey_cons]
    by_cases h3 : k3 = k
    · have hne : ¬ k3 = k2 := fun hh => h (hh.symm.trans h3)
      rw [if_pos h3, lookupKey_cons, lookupKey_cons, if_neg hne, if_neg hne]
    · rw [if_neg h3, lookupKey_cons, lookupKey_cons, ih]

theorem getTable_setTable_self (db : DB) (name : String) (t : Table) :
    (db.setTable name t).getTable name = some t :=
  lookupKey_setKey_self name t db.tables

theorem getTable_setTable_ne {name name2 : String} (h : name2 ≠ name) (db : DB) (t : Table) :
    (db.setTable name t).getTable name2 = db.getTable name2 :=
  lookupKey_setKey_ne h t db.tables

theorem lookupKey_setField_ne {k2 k0 : String} (h : k2 ≠ k0) (g : Val → Val) (r : Row) :
    lookupKey k2 (setField k0 g r) = lookupKey k2 r := by
  induction r with
  | nil => rfl
  | cons p rest ih =>
    obtain ⟨k3, v3⟩ := p
    rw [setField_cons]
    by_cases h3 : k3 = k0
    · rw [if_pos h3, lookupKey_cons, lookupKey_cons, if_neg (Ne.symm h), ih,
        if_neg (fun hh => h ((h3 ▸ hh : k0 = k2)).symm)]
    · rw [if_neg h3, lookupKey_cons, lookupKey_cons, ih]

theorem lookupKey_setField_eq (k0 : String) (g : Val → Val) (r : Row) :
    lookupKey k0 (setField k0 g r) = (lookupKey k0 r).map g := by
  induction r with
  | nil => rfl
  | cons p rest ih =>
    obtain ⟨k3, v3⟩ := p
    rw [setField_cons]
    by_cases h3 : k3 = k0
    · rw [if_pos h3, lookupKey_cons, lookupKey_cons, if_pos rfl, if_pos h3]
      rfl
    · rw [if_neg h3, lookupKey_cons, lookupKey_cons, if_neg h3, if_neg h3, ih]

theorem lookupKey_map_keyfn {α : Type} (f : String → α) (k : String) (cols : List String) :
    lookupKey k (cols.map (fun c => (c, f c))) = if k ∈ cols then some (f k) else none := by
  induction cols with
  | nil => simp [lookupKey]
  | cons c rest ih =>
    rw [List.map_cons, lookupKey_cons]
    by_cases h : c = k
    · subst h
      simp
    · rw [if_neg h, ih]
      simp [List.mem_cons, Ne.symm h]

theorem lookupKey_mkRow (t : Table) (vals : Row) (k : String) :
    lookupKey k (t.mkRow vals) =
      if k ∈ t.cols then
        some (((lookupKey k vals).orElse (fun _ => lookupKey k t.defaults)).getD Val.null)
      else none :=
  lookupKey_map_keyfn _ k t.cols

theorem choice_mem {α : Type} {l : List α} {r : Nat} {a : α} (h : choice l r = some a) :
    a ∈ l :=
  List.get?_mem h

theorem choice_eq_some {α : Type} (l : List α) (r : Nat) (h : l ≠ []) :
    ∃ a, choice l r = some a := by
  have hlen : 0 < l.length := List.length_pos.mpr h
  have hmod : r % l.length < l.length := Nat.mod_lt _ hlen
  exact ⟨l.get ⟨_, hmod⟩, List.get?_eq_get hmod⟩

theorem rowHasUser_iff {user : String} {r : Row} :
    rowHasUser user r = true ↔ lookupKey "username" r = some (Val.s user) := by
  simp [rowHasUser]

theorem rowUser_debitRow (user : String) (c : Int) (r : Row) :
    lookupKey "username" (debitRow user c r) = lookupKey "username" r := by
  unfold debitRow
  split
  · exact lookupKey_setField_ne (by decide) _ _
  · rfl

theorem rowHasUser_debitRow (user user2 : String) (c : Int) (r : Row) :
    rowHasUser user2 (debitRow user c r) = rowHasUser user2 r := by
  unfold rowHasUser
  rw [rowUser_debitRow]

/-- The value stored by the debit into a matched row's coins cell. -/
theorem lookupKey_coins_debitRow_pos {user : String} {r : Row} (hm : rowHasUser user r = true)
    (c : Int) :
    lookupKey "coins" (debitRow user c r) =
      (lookupKey "coins" r).map (fun v => match v with | Val.i n => Val.i (n - c) | _ => Val.null) := by
  unfold debitRow
  rw [if_pos hm, lookupKey_setField_eq]

theorem debitRow_neg {user : String} {r : Row} (hm : rowHasUser user r = false) (c : Int) :
    debitRow user c r = r := by
  unfold debitRow
  rw [hm]
  simp

theorem selectCoins_debit (t : Table) (user : String) (c : Int) :
    selectCoins (t.debit user c) user =
      (selectCoins t user).map
        (fun v => match v with | Val.i n => Val.i (n - c) | _ => Val.null) := by
  unfold selectCoins Table.debit
  simp only
  induction t.rows with
  | nil => rfl
  | cons r rest ih =>
    rw [List.map_cons]
    by_cases hm : rowHasUser user r
    · rw [List.find?_cons_of_pos _ (by rw [rowHasUser_debitRow]; exact hm),
        List.find?_cons_of_pos _ hm, Option.map_some', Option.map_some', Option.map_some']
      rw [lookupKey_coins_debitRow_pos hm]
      cases lookupKey "coins" r with
      | none => rfl
      | some v => cases v <;> rfl

    · rw [List.find?_cons_of_neg _ (by rw [rowHasUser_debitRow]; simp [hm]),
        List.find?_cons_of_neg _ (by simp [hm])]
      exact ih

/-- The rows of a table are untouched by a column-list change. -/
theorem selectCoins_ddlTable (t : Table) (pon : String) (user : String) :
    selectCoins (ddlTable t pon) user = selectCoins t user := by
  unfold ddlTable
  split <;> rfl

theorem ddlTable_required (t : Table) (pon : String) :
    (ddlTable t pon).required = t.required := by
  unfold ddlTable
  split <;> rfl

theorem ddlTable_defaults (t : Table) (pon : String) :
    (ddlTable t pon).defaults = t.defaults := by
  unfold ddlTable
  split <;> rfl

theorem ddlTable_rows (t : Table) (pon : String) :
    (ddlTable t pon).rows = t.rows := by
  unfold ddlTable
  split <;> rfl

theorem ddlTable_mem_cols (t : Table) (pon : String) : pon ∈ (ddlTable t pon).cols := by
  unfold ddlTable
  split
  · assumption
  · exact List.mem_append.mpr (Or.inr (List.mem_singleton.mpr rfl))

theorem ddlTable_cols_sub (t : Table) (pon : String) (k : String) (hk : k ∈ t.cols) :
    k ∈ (ddlTable t pon).cols := by
  unfold ddlTable
  split
  · exact hk
  · exact List.mem_append.mpr (Or.inl hk)

/-- INSERT into a table without NOT-NULL constraints always succeeds and
appends the completed row. -/
theorem insertRow_nil_required {t : Table} (h : t.required = []) (vals : Row) :
    t.insertRow vals = some { t with rows := t.rows ++ [t.mkRow vals] } := by
  unfold Table.insertRow
  rw [h]
  rfl

/-- INSERT naming a single column into the users credentials table fails:
at least one of the three NOT-NULL columns is missing. -/
theorem insertRow_users_single {t : Table}
    (h : t.required = ["username", "password_hash", "token"]) (k : String) (v : Val) :
    t.insertRow [(k, v)] = none := by
  unfold Table.insertRow
  rw [h]
  by_cases hk : k = "username"
  · subst hk
    have h2 : lookupKey "password_hash" [("username", v)] = none := by
      rw [lookupKey_cons, if_neg (by decide), lookupKey_nil]
    simp [List.all, h2]
  · have h2 : lookupKey "username" [(k, v)] = none := by
      rw [lookupKey_cons, if_neg hk, lookupKey_nil]
    simp [List.all, h2]

end BasicLemmas

section PullLemmas

/-- Introduction form of a passed phase-one check. -/
theorem pullCheck_eq_pass {s : ServerState} {user pon : String} {p : Pon} {ut : Table}
    {coins : Int}
    (hp : lookupKey pon s.pondata = some p)
    (hut : s.db.getTable "users" = some ut)
    (hc : selectCoins ut user = some (Val.i coins))
    (hge : ¬ coins < p.costD) :
    pullCheck s user pon = CheckResult.pass p coins := by
  simp only [pullCheck, hp, hut, hc, if_neg hge]

/-- Inversion of a passed phase-one check. -/
theorem pullCheck_pass {s : ServerState} {user pon : String} {p : Pon} {coins : Int}
    (h : pullCheck s user pon = CheckResult.pass p coins) :
    lookupKey pon s.pondata = some p ∧
    ∃ ut, s.db.getTable "users" = some ut ∧
      selectCoins ut user = some (Val.i coins) ∧ ¬ coins < p.costD := by
  unfold pullCheck at h
  cases hp : lookupKey pon s.pondata with
  | none =>
    simp only [hp] at h
    exact CheckResult.noConfusion h
  | some q =>
    simp only [hp] at h
    cases hut : s.db.getTable "users" with
    | none =>
      simp only [hut] at h
      exact CheckResult.noConfusion h
    | some ut =>
      simp only [hut] at h
      cases hc : selectCoins ut user with
      | none =>
        simp only [hc] at h
        exact CheckResult.noConfusion h
      | some v =>
        simp only [hc] at h
        cases v with
        | null => exact CheckResult.noConfusion h
        | s v2 => exact CheckResult.noConfusion h
        | i coins2 =>
          simp only [] at h
          by_cases hlt : coins2 < q.costD
          · rw [if_pos hlt] at h
            exact CheckResult.noConfusion h
          · rw [if_neg hlt] at h
            cases h
            exact ⟨rfl, ut, rfl, hc, hlt⟩

/-- The committed tail when the INSERT succeeds: both writes persist. -/
theorem finishPull_ok {s : ServerState} {user pon : String} {t1 ut : Table}
    (cost : Int) (ref : String)
    (hgt : s.db.getTable user = some t1)
    (hreq : t1.required = [])
    (husers : user ≠ "users")
    (hut : s.db.getTable "users" = some ut) :
    finishPull s user pon cost ref =
      (PullOutcome.ok ref,
        { s with db := (s.db.setTable user { t1 with rows := t1.rows ++ [t1.mkRow [(pon, Val.s ref)]] }).setTable "users" (ut.debit user cost) }) := by
  have hu2 : (s.db.setTable user
      { t1 with rows := t1.rows ++ [t1.mkRow [(pon, Val.s ref)]] }).getTable "users" = some ut := by
    rw [getTable_setTable_ne (Ne.symm husers)]
    exact hut
  simp only [finishPull, hgt, insertRow_nil_required hreq, hu2]

/-- The committed tail when the target is the credentials table: the INSERT
violates a NOT-NULL constraint, the transaction rolls back, the exception
propagates. -/
theorem finishPull_users {s : ServerState} {t1 : Table} (pon : String) (cost : Int) (ref : String)
    (hgt : s.db.getTable "users" = some t1)
    (hreq : t1.required = ["username", "password_hash", "token"]) :
    finishPull s "users" pon cost ref = (PullOutcome.err, s) := by
  simp only [finishPull, hgt, insertRow_users_single hreq]

theorem finishPull_ne_noResult (s : ServerState) (user pon : String) (cost : Int) (ref : String) :
    (finishPull s user pon cost ref).1 ≠ PullOutcome.noResult := by
  simp only [finishPull]
  split
  · simp
  · split
    · simp
    · split
      · simp
      · simp

theorem finishPull_frame {name user : String} (h1 : name ≠ user) (h2 : name ≠ "users")
    (s : ServerState) (pon : String) (cost : Int) (ref : String) :
    ((finishPull s user pon cost ref).2).db.getTable name = s.db.getTable name := by
  simp only [finishPull]
  split
  · rfl
  · split
    · rfl
    · split
      · rfl
      · show ((s.db.setTable user _).setTable "users" _).getTable name = _
        rw [getTable_setTable_ne h2, getTable_setTable_ne h1]

theorem finishPull_pondata (s : ServerState) (user pon : String) (cost : Int) (ref : String) :
    ((finishPull s user pon cost ref).2).pondata = s.pondata := by
  simp only [finishPull]
  split
  · rfl
  · split
    · rfl
    · split
      · rfl
      · rfl

/-- The DDL phase of pullWrite: the table stored under the raw username
afterwards, the frame on every other table, and the reduction of pullWrite
to the draw phase. -/
theorem pullWrite_split (s : ServerState) (user pon : String) (p : Pon) (c1 c2 : Nat) :
    ∃ s2 : ServerState,
      s2.pondata = s.pondata ∧
      s2.db.getTable user = some (ddlTable ((s.db.getTable user).getD invSchema) pon) ∧
      (∀ name, name ≠ user → s2.db.getTable name = s.db.getTable name) ∧
      pullWrite s user pon p c1 c2 = pullDraw s2 user pon p c1 c2 := by
  unfold pullWrite
  cases hgt : s.db.getTable user with
  | some t0 =>
    simp only [hgt, Option.getD_some]
    by_cases hmem : pon ∈ t0.cols
    · rw [if_pos hmem]
      have hddl : ddlTable t0 pon = t0 := by
        unfold ddlTable
        rw [if_pos hmem]
      exact ⟨s, rfl, by rw [hgt, hddl], fun name h => rfl, rfl⟩
    · rw [if_neg hmem]
      have hddl : ddlTable t0 pon = { t0 with cols := t0.cols ++ [pon] } := by
        unfold ddlTable
        rw [if_neg hmem]
      refine ⟨{ s with db := s.db.setTable user { t0 with cols := t0.cols ++ [pon] } },
        rfl, ?_, fun name h => getTable_setTable_ne h _ _, rfl⟩
      show (s.db.setTable user _).getTable user = _
      rw [getTable_setTable_self, hddl]
  | none =>
    simp only [hgt, Option.getD_none]
    have hbase : (s.db.setTable user invSchema).getTable user = some invSchema :=
      getTable_setTable_self _ _ _
    rw [hbase]
    simp only [Option.getD_some]
    by_cases hmem : pon ∈ invSchema.cols
    · rw [if_pos hmem]
      have hddl : ddlTable invSchema pon = invSchema := by
        unfold ddlTable
        rw [if_pos hmem]
      refine ⟨{ s with db := s.db.setTable user invSchema },
        rfl, ?_, fun name h => getTable_setTable_ne h _ _, rfl⟩
      show (s.db.setTable user invSchema).getTable user = _
      rw [hbase, hddl]
    · rw [if_neg hmem]
      have hddl : ddlTable invSchema pon = { invSchema with cols := invSchema.cols ++ [pon] } := by
        unfold ddlTable
        rw [if_neg hmem]
      refine ⟨{ s with db := (s.db.setTable user invSchema).setTable user { invSchema with cols := invSchema.cols ++ [pon] } },
        rfl, ?_, fun name h => ?_, rfl⟩
      · show ((s.db.setTable user invSchema).setTable user _).getTable user = _
        rw [getTable_setTable_self, hddl]
      · show ((s.db.setTable user invSchema).setTable user _).getTable name = _
        rw [getTable_setTable_ne h, getTable_setTable_ne h]

theorem pullDraw_ne_noResult (s2 : ServerState) (user pon : String) (p : Pon) (c1 c2 : Nat) :
    (pullDraw s2 user pon p c1 c2).1 ≠ PullOutcome.noResult := by
  unfold pullDraw
  split
  · simp
  · split
    · exact finishPull_ne_noResult _ _ _ _ _
    · split
      · simp
      · exact finishPull_ne_noResult _ _ _ _ _

theorem pullDraw_frame {name user : String} (h1 : name ≠ user) (h2 : name ≠ "users")
    (s2 : ServerState) (pon : String) (p : Pon) (c1 c2 : Nat) :
    ((pullDraw s2 user pon p c1 c2).2).db.getTable name = s2.db.getTable name := by
  unfold pullDraw
  split
  · rfl
  · split
    · exact finishPull_frame h1 h2 _ _ _ _
    · split
      · rfl
      · exact finishPull_frame h1 h2 _ _ _ _

theorem pullDraw_pondata (s2 : ServerState) (user pon : String) (p : Pon) (c1 c2 : Nat) :
    ((pullDraw s2 user pon p c1 c2).2).pondata = s2.pondata := by
  unfold pullDraw
  split
  · rfl
  · split
    · exact finishPull_pondata _ _ _ _ _
    · split
      · rfl
      · exact finishPull_pondata _ _ _ _ _

theorem pullWrite_frame {name user : String} (h1 : name ≠ user) (h2 : name ≠ "users")
    (s : ServerState) (pon : String) (p : Pon) (c1 c2 : Nat) :
    ((pullWrite s user pon p c1 c2).2).db.getTable name = s.db.getTable name := by
  obtain ⟨s2, _, _, hframe, heq⟩ := pullWrite_split s user pon p c1 c2
  rw [heq, pullDraw_frame h1 h2, hframe name h1]

theorem pullWrite_ne_noResult (s : ServerState) (user pon : String) (p : Pon) (c1 c2 : Nat) :
    (pullWrite s user pon p c1 c2).1 ≠ PullOutcome.noResult := by
  obtain ⟨s2, _, _, _, heq⟩ := pullWrite_split s user pon p c1 c2
  rw [heq]
  exact pullDraw_ne_noResult _ _ _ _ _ _

theorem pullWrite_pondata (s : ServerState) (user pon : String) (p : Pon) (c1 c2 : Nat) :
    ((pullWrite s user pon p c1 c2).2).pondata = s.pondata := by
  obtain ⟨s2, hpd, _, _, heq⟩ := pullWrite_split s user pon p c1 c2
  rw [heq, pullDraw_pondata, hpd]

theorem finishPull_post {s2 : ServerState} {user pon : String} {t1 ut : Table} (cost : Int)
    (ref : String)
    (ht1 : s2.db.getTable user = some t1)
    (hreq : t1.required = [])
    (husers : user ≠ "users")
    (hut : s2.db.getTable "users" = some ut) :
    (finishPull s2 user pon cost ref).1 = PullOutcome.ok ref ∧
    ((finishPull s2 user pon cost ref).2).db.getTable user =
      some { t1 with rows := t1.rows ++ [t1.mkRow [(pon, Val.s ref)]] } ∧
    ((finishPull s2 user pon cost ref).2).db.getTable "users" = some (ut.debit user cost) := by
  rw [finishPull_ok cost ref ht1 hreq husers hut]
  refine ⟨rfl, ?_, ?_⟩
  · show ((s2.db.setTable user _).setTable "users" _).getTable user = _
    rw [getTable_setTable_ne husers, getTable_setTable_self]
  · show ((s2.db.setTable user _).setTable "users" _).getTable "users" = _
    rw [getTable_setTable_self]

theorem pullDraw_ok {s2 : ServerState} {user pon : String} {p : Pon} (c1 c2 : Nat) {t1 ut : Table}
    (ht1 : s2.db.getTable user = some t1)
    (hreq : t1.required = [])
    (husers : user ≠ "users")
    (hut : s2.db.getTable "users" = some ut)
    (hcards : p.cards ≠ [])
    (hvars : ∀ c ∈ p.cards, ∀ vs, c.varieties = some vs → vs ≠ []) :
    ∃ ref,
      (pullDraw s2 user pon p c1 c2).1 = PullOutcome.ok ref ∧
      ((pullDraw s2 user pon p c1 c2).2).db.getTable user =
        some { t1 with rows := t1.rows ++ [t1.mkRow [(pon, Val.s ref)]] } ∧
      ((pullDraw s2 user pon p c1 c2).2).db.getTable "users" = some (ut.debit user p.costD) ∧
      ∃ card ∈ p.cards,
        (card.varieties = none ∧ ref = card.id) ∨
        ∃ vs v, card.varieties = some vs ∧ v ∈ vs ∧ ref = card.id ++ "/" ++ v.id := by
  obtain ⟨card, hcard⟩ := choice_eq_some p.cards c1 hcards
  have hmemc := choice_mem hcard
  cases hv : card.varieties with
  | none =>
    have heq : pullDraw s2 user pon p c1 c2 = finishPull s2 user pon p.costD card.id := by
      simp only [pullDraw, hcard, hv]
    obtain ⟨h1, h2, h3⟩ := finishPull_post p.costD card.id ht1 hreq husers hut
    rw [heq]
    exact ⟨card.id, h1, h2, h3, card, hmemc, Or.inl ⟨hv, rfl⟩⟩
  | some vs =>
    have hvs : vs ≠ [] := hvars card hmemc vs hv
    obtain ⟨v, hvc⟩ := choice_eq_some vs c2 hvs
    have hmemv := choice_mem hvc
    have heq : pullDraw s2 user pon p c1 c2 =
        finishPull s2 user pon p.costD (card.id ++ "/" ++ v.id) := by
      simp only [pullDraw, hcard, hv, hvc]
    obtain ⟨h1, h2, h3⟩ := finishPull_post p.costD (card.id ++ "/" ++ v.id) ht1 hreq husers hut
    rw [heq]
    exact ⟨card.id ++ "/" ++ v.id, h1, h2, h3, card, hmemc, Or.inr ⟨vs, v, hv, hmemv, rfl⟩⟩

/-- Master lemma for a successful pull: with the pon in the freshly scanned
catalog, the user present with sufficient balance, a drawable cards list,
and a constraint-free inventory table, the pull returns a reference, appends
exactly one inventory row holding it, and debits exactly the cost. -/
theorem pull_ok {dir : List PonFolder} {s : ServerState} {user pon : String} {p : Pon}
    {ut : Table} {coins : Int} (c1 c2 : Nat)
    (hp : lookupKey pon (loadPons dir) = some p)
    (hut : s.db.getTable "users" = some ut)
    (hc : selectCoins ut user = some (Val.i coins))
    (hge : ¬ coins < p.costD)
    (husers : user ≠ "users")
    (hreq : ∀ t, s.db.getTable user = some t → t.required = [])
    (hcards : p.cards ≠ [])
    (hvars : ∀ c ∈ p.cards, ∀ vs, c.varieties = some vs → vs ≠ []) :
    ∃ ref row,
      (pull dir s user pon c1 c2).1 = PullOutcome.ok ref ∧
      ((pull dir s user pon c1 c2).2).invRows user = s.invRows user ++ [row] ∧
      lookupKey pon row = some (Val.s ref) ∧
      ((pull dir s user pon c1 c2).2).coinsOf user = some (Val.i (coins - p.costD)) ∧
      ∃ card ∈ p.cards,
        (card.varieties = none ∧ ref = card.id) ∨
        ∃ vs v, card.varieties = some vs ∧ v ∈ vs ∧ ref = card.id ++ "/" ++ v.id := by
  have hpass : pullCheck { s with pondata := loadPons dir } user pon = CheckResult.pass p coins :=
    pullCheck_eq_pass hp hut hc hge
  have hpull : pull dir s user pon c1 c2 =
      pullWrite { s with pondata := loadPons dir } user pon p c1 c2 := by
    simp only [pull, hpass]
  obtain ⟨s2, hpd2, ht1, hframe2, heq2⟩ :=
    pullWrite_split { s with pondata := loadPons dir } user pon p c1 c2
  have hreq0 : ((s.db.getTable user).getD invSchema).required = [] := by
    cases hg : s.db.getTable user with
    | some t => simpa using hreq t hg
    | none => rfl
  have hreq1 : (ddlTable ((s.db.getTable user).getD invSchema) pon).required = [] :=
    (ddlTable_required _ _).trans hreq0
  have hpon : pon ∈ (ddlTable ((s.db.getTable user).getD invSchema) pon).cols :=
    ddlTable_mem_cols _ _
  have hut2 : s2.db.getTable "users" = some ut := (hframe2 "users" (Ne.symm husers)).trans hut
  obtain ⟨ref, h1, h2, h3, hcardinfo⟩ :=
    pullDraw_ok c1 c2 ht1 hreq1 husers hut2 hcards hvars
  have hrows : (ddlTable ((s.db.getTable user).getD invSchema) pon).rows = s.invRows user := by
    rw [ddlTable_rows]
    unfold ServerState.invRows
    cases hg : s.db.getTable user with
    | some t => simp [hg]
    | none => simp [hg, invSchema]
  refine ⟨ref, (ddlTable ((s.db.getTable user).getD invSchema) pon).mkRow [(pon, Val.s ref)],
    ?_, ?_, ?_, ?_, hcardinfo⟩
  · rw [hpull, heq2]
    exact h1
  · rw [hpull, heq2]
    simp only [ServerState.invRows, h2]
    rw [hrows]
    rfl
  · rw [lookupKey_mkRow, if_pos hpon, lookupKey_cons, if_pos rfl]
    rfl
  · rw [hpull, heq2]
    simp only [ServerState.coinsOf, h3]
    rw [selectCoins_debit, hc]
    rfl

theorem finishPull_ok_ref {s : ServerState} {user pon : String} {cost : Int} {r ref : String}
    {s2 : ServerState} (h : finishPull s user pon cost r = (PullOutcome.ok ref, s2)) : ref = r := by
  simp only [finishPull] at h
  split at h
  · exact absurd (congrArg Prod.fst h) (by simp)
  · split at h
    · exact absurd (congrArg Prod.fst h) (by simp)
    · split at h
      · exact absurd (congrArg Prod.fst h) (by simp)
      · have h2 := congrArg Prod.fst h
        simp at h2
        exact h2.symm

theorem pullDraw_ok_shape {s2 : ServerState} {user pon : String} {p : Pon} {c1 c2 : Nat}
    {ref : String} {s3 : ServerState}
    (h : pullDraw s2 user pon p c1 c2 = (PullOutcome.ok ref, s3)) :
    ∃ card ∈ p.cards,
      (card.varieties = none ∧ ref = card.id) ∨
      ∃ vs v, card.varieties = some vs ∧ v ∈ vs ∧ ref = card.id ++ "/" ++ v.id := by
  unfold pullDraw at h
  cases hcard : choice p.cards c1 with
  | none =>
    simp only [hcard] at h
    exact absurd (congrArg Prod.fst h) (by simp)
  | some card =>
    simp only [hcard] at h
    have hmemc := choice_mem hcard
    cases hv : card.varieties with
    | none =>
      simp only [hv] at h
      exact ⟨card, hmemc, Or.inl ⟨hv, finishPull_ok_ref h⟩⟩
    | some vs =>
      simp only [hv] at h
      cases hvc : choice vs c2 with
      | none =>
        simp only [hvc] at h
        exact absurd (congrArg Prod.fst h) (by simp)
      | some v =>
        simp only [hvc] at h
        exact ⟨card, hmemc, Or.inr ⟨vs, v, hv, choice_mem hvc, finishPull_ok_ref h⟩⟩

theorem pullDraw_users_err {s2 : ServerState} {pon : String} {p : Pon} {c1 c2 : Nat} {t1 : Table}
    (ht1 : s2.db.getTable "users" = some t1)
    (hreq : t1.required = ["username", "password_hash", "token"]) :
    pullDraw s2 "users" pon p c1 c2 = (PullOutcome.err, s2) := by
  unfold pullDraw
  cases hcard : choice p.cards c1 with
  | none => simp only [hcard]
  | some card =>
    simp only [hcard]
    cases hv : card.varieties with
    | none =>
      simp only [hv]
      exact finishPull_users pon p.costD card.id ht1 hreq
    | some vs =>
      simp only [hv]
      cases hvc : choice vs c2 with
      | none => simp only [hvc]
      | some v =>
        simp only [hvc]
        exact finishPull_users pon p.costD _ ht1 hreq

end PullLemmas

section TokenLemmas

theorem checkpw_hashpw (t : String) : checkpw t (hashpw t) = true := by
  simp [checkpw]

theorem hashpw_inj {a b : String} (h : hashpw a = hashpw b) : a = b := by
  have h2 := congrArg String.data h
  simp only [hashpw, String.data_append] at h2
  exact String.ext (List.append_cancel_left h2)

theorem checkpw_hashpw_ne {t t2 : String} (hne : t ≠ t2) : checkpw t (hashpw t2) = false := by
  simp only [checkpw, beq_eq_false_iff_ne]
  exact fun h => hne (hashpw_inj h).symm

theorem tokenUpdateRow_pos {u tnew : String} {r : Row} (hm : rowHasUser u r = true) :
    tokenUpdateRow u tnew r = setField "token" (fun _ => Val.s (hashpw tnew)) r := by
  unfold tokenUpdateRow
  rw [if_pos hm]

theorem tokenUpdateRow_neg {u tnew : String} {r : Row} (hm : ¬ rowHasUser u r = true) :
    tokenUpdateRow u tnew r = r := by
  unfold tokenUpdateRow
  rw [if_neg hm]

/-- After the token update, the first row matching a fresh token is the
updated row of the user, and it carries the user's username. -/
theorem find_fresh_token {u tnew : String} (rows : List Row)
    (hfresh : ∀ r ∈ rows, tokenMatches tnew r = false)
    (hkey : ∀ r ∈ rows, rowHasUser u r = true → (lookupKey "token" r).isSome = true)
    (hrow : ∃ r ∈ rows, rowHasUser u r = true) :
    ∃ r2, (rows.map (tokenUpdateRow u tnew)).find? (tokenMatches tnew) = some r2 ∧
      lookupKey "username" r2 = some (Val.s u) := by
  induction rows with
  | nil =>
    obtain ⟨r, hr, -⟩ := hrow
    cases hr
  | cons r0 rest ih =>
    by_cases hm : rowHasUser u r0 = true
    · obtain ⟨v0, hv0⟩ := Option.isSome_iff_exists.mp (hkey r0 (List.mem_cons_self _ _) hm)
      have htok : lookupKey "token" (tokenUpdateRow u tnew r0) = some (Val.s (hashpw tnew)) := by
        rw [tokenUpdateRow_pos hm, lookupKey_setField_eq, hv0]
        rfl
      have hmatch : tokenMatches tnew (tokenUpdateRow u tnew r0) = true := by
        unfold tokenMatches
        rw [htok]
        exact checkpw_hashpw tnew
      rw [List.map_cons, List.find?_cons_of_pos _ hmatch]
      refine ⟨_, rfl, ?_⟩
      rw [tokenUpdateRow_pos hm, lookupKey_setField_ne (by decide)]
      exact rowHasUser_iff.mp hm
    · have hnm : ¬ tokenMatches tnew (tokenUpdateRow u tnew r0) = true := by
        rw [tokenUpdateRow_neg hm, hfresh r0 (List.mem_cons_self _ _)]
        simp
      rw [List.map_cons, List.find?_cons_of_neg _ hnm]
      refine ih (fun r hr => hfresh r (List.mem_cons_of_mem _ hr))
        (fun r hr => hkey r (List.mem_cons_of_mem _ hr)) ?_
      obtain ⟨r, hr, hu⟩ := hrow
      cases List.mem_cons.mp hr with
      | inl heq =>
        subst heq
        exact absurd hu hm
      | inr hmem => exact ⟨r, hmem, hu⟩

/-- After the token update, no row found for a token other than the fresh
one carries the user's username: the user's rows hold only the fresh hash
and other rows hold other usernames. -/
theorem find_other_token {u tnew t : String} (hne : t ≠ tnew) (rows : List Row) :
    ∀ r2, (rows.map (tokenUpdateRow u tnew)).find? (tokenMatches t) = some r2 →
      lookupKey "username" r2 ≠ some (Val.s u) := by
  induction rows with
  | nil =>
    intro r2 h
    cases h
  | cons r0 rest ih =>
    intro r2 h
    by_cases hm : rowHasUser u r0 = true
    · have hfalse : ¬ tokenMatches t (tokenUpdateRow u tnew r0) = true := by
        unfold tokenMatches
        rw [tokenUpdateRow_pos hm, lookupKey_setField_eq]
        cases hv0 : lookupKey "token" r0 with
        | none => simp
        | some v0 =>
          simp only [Option.map_some']
          rw [checkpw_hashpw_ne hne]
          simp
      rw [List.map_cons, List.find?_cons_of_neg _ hfalse] at h
      exact ih r2 h
    · rw [List.map_cons, tokenUpdateRow_neg hm] at h
      by_cases hmt : tokenMatches t r0 = true
      · rw [List.find?_cons_of_pos _ hmt] at h
        cases h
        intro hcontra
        exact hm (rowHasUser_iff.mpr hcontra)
      · rw [List.find?_cons_of_neg _ hmt] at h
        exact ih r2 h

end TokenLemmas

section InvariantLemmas

theorem rowUser_tokenUpdateRow (u tok : String) (r : Row) :
    lookupKey "username" (tokenUpdateRow u tok r) = lookupKey "username" r := by
  by_cases hm : rowHasUser u r = true
  · rw [tokenUpdateRow_pos hm, lookupKey_setField_ne (by decide)]
  · rw [tokenUpdateRow_neg hm]

theorem coins_tokenUpdateRow (u tok : String) (r : Row) :
    lookupKey "coins" (tokenUpdateRow u tok r) = lookupKey "coins" r := by
  by_cases hm : rowHasUser u r = true
  · rw [tokenUpdateRow_pos hm, lookupKey_setField_ne (by decide)]
  · rw [tokenUpdateRow_neg hm]

/-- The three-column INSERT of create_user always satisfies the users
table's NOT NULL constraints. -/
theorem insertRow_regvals {t : Table}
    (h : t.required = ["username", "password_hash", "token"]) (u ph th : String) :
    t.insertRow [("username", Val.s u), ("password_hash", Val.s ph), ("token", Val.s th)] =
      some { t with rows := t.rows ++
        [t.mkRow [("username", Val.s u), ("password_hash", Val.s ph), ("token", Val.s th)]] } := by
  unfold Table.insertRow
  rw [h]
  have h1 : lookupKey "username"
      [("username", Val.s u), ("password_hash", Val.s ph), ("token", Val.s th)] =
      some (Val.s u) := by
    rw [lookupKey_cons, if_pos rfl]
  have h2 : lookupKey "password_hash"
      [("username", Val.s u), ("password_hash", Val.s ph), ("token", Val.s th)] =
      some (Val.s ph) := by
    rw [lookupKey_cons, if_neg (by decide), lookupKey_cons, if_pos rfl]
  have h3 : lookupKey "token"
      [("username", Val.s u), ("password_hash", Val.s ph), ("token", Val.s th)] =
      some (Val.s th) := by
    rw [lookupKey_cons, if_neg (by decide), lookupKey_cons, if_neg (by decide),
      lookupKey_cons, if_pos rfl]
  simp [List.all_cons, h1, h2, h3]

theorem WF_register (db : DB) (u pw ph th : String) (h : WF db) :
    WF (registerUser db u pw ph th) := by
  obtain ⟨ut, hut, hreq, hdef, hucol, hnodup, hcoins⟩ := h
  unfold registerUser
  by_cases hval : (validUsername u && validPassword pw) = true
  · rw [if_pos hval]
    by_cases hex : user_exists db u = true
    · rw [if_pos hex]
      exact ⟨ut, hut, hreq, hdef, hucol, hnodup, hcoins⟩
    · rw [if_neg hex]
      have hnex : ∀ r ∈ ut.rows, rowHasUser u r = false := by
        intro r hr
        cases hbb : rowHasUser u r with
        | false => rfl
        | true =>
          exfalso
          apply hex
          simp only [user_exists, hut, List.any_eq_true]
          exact ⟨r, hr, hbb⟩
      have hins := insertRow_regvals hreq u ph th
      have hcreate : create_user db u ph th =
          some (db.setTable "users" { ut with rows := ut.rows ++
            [ut.mkRow [("username", Val.s u), ("password_hash", Val.s ph),
              ("token", Val.s th)]] }) := by
        simp only [create_user, hut, hins, Option.map_some']
      rw [hcreate]
      have hnewu : rowUser (ut.mkRow [("username", Val.s u), ("password_hash", Val.s ph),
          ("token", Val.s th)]) = some (Val.s u) := by
        unfold rowUser
        rw [lookupKey_mkRow, if_pos hucol, lookupKey_cons, if_pos rfl]
        rfl
      refine ⟨_, getTable_setTable_self _ _ _, hreq, hdef, hucol, ?_, ?_⟩
      · show ((ut.rows ++ [_]).map rowUser).Nodup
        rw [List.map_append, List.map_cons, List.map_nil, hnewu]
        rw [List.nodup_append]
        refine ⟨hnodup, List.nodup_singleton _, ?_⟩
        intro x hx hxs
        rw [List.mem_singleton.mp hxs] at hx
        obtain ⟨r, hr, hru⟩ := List.mem_map.mp hx
        have : rowHasUser u r = true := rowHasUser_iff.mpr hru
        rw [hnex r hr] at this
        cases this
      · intro r hr n hn
        rcases List.mem_append.mp hr with hr | hr
        · exact hcoins r hr n hn
        · rw [List.mem_singleton.mp hr] at hn
          by_cases hcc : "coins" ∈ ut.cols
          · rw [lookupKey_mkRow, if_pos hcc, lookupKey_cons, if_neg (by decide),
              lookupKey_cons, if_neg (by decide), lookupKey_cons, if_neg (by decide),
              lookupKey_nil] at hn
            rw [show (Option.orElse none fun _ => lookupKey "coins" ut.defaults) =
                lookupKey "coins" ut.defaults from rfl] at hn
            rw [hdef] at hn
            cases Option.some.inj hn
            decide
          · rw [lookupKey_mkRow, if_neg hcc] at hn
            exact Option.noConfusion hn
  · rw [if_neg hval]
    exact ⟨ut, hut, hreq, hdef, hucol, hnodup, hcoins⟩

theorem WF_login (db : DB) (u tok : String) (h : WF db) : WF (generate_token db u tok) := by
  obtain ⟨ut, hut, hreq, hdef, hucol, hnodup, hcoins⟩ := h
  have hgen : generate_token db u tok =
      db.setTable "users" { ut with rows := ut.rows.map (tokenUpdateRow u tok) } := by
    simp only [generate_token, hut]
  rw [hgen]
  refine ⟨_, getTable_setTable_self _ _ _, hreq, hdef, hucol, ?_, ?_⟩
  · show ((ut.rows.map (tokenUpdateRow u tok)).map rowUser).Nodup
    rw [List.map_map]
    have : ut.rows.map (rowUser ∘ tokenUpdateRow u tok) = ut.rows.map rowUser :=
      List.map_congr_left (fun r hr => rowUser_tokenUpdateRow u tok r)
    rw [this]
    exact hnodup
  · intro r hr n hn
    obtain ⟨r0, hr0, hfr0⟩ := List.mem_map.mp hr
    refine hcoins r0 hr0 n ?_
    rw [← coins_tokenUpdateRow u tok r0, hfr0]
    exact hn

theorem selectCoins_some {t : Table} {user : String} {coins : Int}
    (h : selectCoins t user = some (Val.i coins)) :
    ∃ rs, t.rows.find? (rowHasUser user) = some rs ∧
      lookupKey "coins" rs = some (Val.i coins) := by
  unfold selectCoins at h
  cases hf : t.rows.find? (rowHasUser user) with
  | none =>
    rw [hf] at h
    exact Option.noConfusion h
  | some rs =>
    rw [hf, Option.map_some'] at h
    have h2 := Option.some.inj h
    cases hlc : lookupKey "coins" rs with
    | none =>
      rw [hlc] at h2
      exact Val.noConfusion h2
    | some v =>
      rw [hlc] at h2
      exact ⟨rs, rfl, by rw [hlc]; exact congrArg some h2⟩

theorem WF_finishPull {s2 : ServerState} {user pon : String} {cost coins : Int} (ref : String)
    {ut2 : Table}
    (hut2 : s2.db.getTable "users" = some ut2)
    (hreq2 : ut2.required = ["username", "password_hash", "token"])
    (hdef2 : lookupKey "coins" ut2.defaults = some (Val.i 3))
    (hucol2 : "username" ∈ ut2.cols)
    (hnodup2 : (ut2.rows.map rowUser).Nodup)
    (hcoins2 : ∀ r ∈ ut2.rows, ∀ n : Int, lookupKey "coins" r = some (Val.i n) → 0 ≤ n)
    (hsel : selectCoins ut2 user = some (Val.i coins))
    (hnlt : ¬ coins < cost) :
    WF ((finishPull s2 user pon cost ref).2).db := by
  have hWF2 : WF s2.db := ⟨ut2, hut2, hreq2, hdef2, hucol2, hnodup2, hcoins2⟩
  by_cases huser : user = "users"
  · subst huser
    rw [finishPull_users pon cost ref hut2 hreq2]
    exact hWF2
  · have husers2 : ("users" : String) ≠ user := fun hh => huser hh.symm
    cases hgt : s2.db.getTable user with
    | none =>
      have heqf : finishPull s2 user pon cost ref = (PullOutcome.err, s2) := by
        simp only [finishPull, hgt]
      rw [heqf]
      exact hWF2
    | some t =>
      cases hins : t.insertRow [(pon, Val.s ref)] with
      | none =>
        have heqf : finishPull s2 user pon cost ref = (PullOutcome.err, s2) := by
          simp only [finishPull, hgt, hins]
        rw [heqf]
        exact hWF2
      | some t2 =>
        have hu3 : (s2.db.setTable user t2).getTable "users" = some ut2 := by
          rw [getTable_setTable_ne husers2]
          exact hut2
        have heqf : finishPull s2 user pon cost ref =
            (PullOutcome.ok ref,
              { s2 with db := (s2.db.setTable user t2).setTable "users" (ut2.debit user cost) }) := by
          simp only [finishPull, hgt, hins, hu3]
        rw [heqf]
        obtain ⟨rs, hfs, hvs⟩ := selectCoins_some hsel
        refine ⟨ut2.debit user cost, getTable_setTable_self _ _ _, hreq2, hdef2, hucol2, ?_, ?_⟩
        · show ((ut2.rows.map (debitRow user cost)).map rowUser).Nodup
          rw [List.map_map]
          have hmaps : ut2.rows.map (rowUser ∘ debitRow user cost) = ut2.rows.map rowUser :=
            List.map_congr_left (fun r hr => rowUser_debitRow user cost r)
          rw [hmaps]
          exact hnodup2
        · intro r hr n hn
          obtain ⟨r0, hr0, hfr0⟩ := List.mem_map.mp hr
          by_cases hm : rowHasUser user r0 = true
          · have hr0s : r0 = rs :=
              List.inj_on_of_nodup_map hnodup2 hr0 (List.mem_of_find?_eq_some hfs)
                (by
                  unfold rowUser
                  rw [rowHasUser_iff.mp hm, rowHasUser_iff.mp (List.find?_some hfs)])
            subst hr0s
            rw [← hfr0, lookupKey_coins_debitRow_pos hm cost, hvs, Option.map_some'] at hn
            have h3 : coins - cost = n := Val.i.inj (Option.some.inj hn)
            have h4 : (0 : Int) ≤ coins - cost := Int.sub_nonneg.mpr (not_lt.mp hnlt)
            rw [h3] at h4
            exact h4
          · rw [← hfr0, debitRow_neg (by simpa using hm) cost] at hn
            exact hcoins2 r0 hr0 n hn

theorem WF_pullDraw {s2 : ServerState} {user pon : String} {p : Pon} {coins : Int}
    (c1 c2 : Nat) {ut2 : Table}
    (hut2 : s2.db.getTable "users" = some ut2)
    (hreq2 : ut2.required = ["username", "password_hash", "token"])
    (hdef2 : lookupKey "coins" ut2.defaults = some (Val.i 3))
    (hucol2 : "username" ∈ ut2.cols)
    (hnodup2 : (ut2.rows.map rowUser).Nodup)
    (hcoins2 : ∀ r ∈ ut2.rows, ∀ n : Int, lookupKey "coins" r = some (Val.i n) → 0 ≤ n)
    (hsel : selectCoins ut2 user = some (Val.i coins))
    (hnlt : ¬ coins < p.costD) :
    WF ((pullDraw s2 user pon p c1 c2).2).db := by
  have hWF2 : WF s2.db := ⟨ut2, hut2, hreq2, hdef2, hucol2, hnodup2, hcoins2⟩
  unfold pullDraw
  cases hcard : choice p.cards c1 with
  | none =>
    simp only [hcard]
    exact hWF2
  | some card =>
    simp only [hcard]
    cases hv : card.varieties with
    | none =>
      simp only [hv]
      exact WF_finishPull card.id hut2 hreq2 hdef2 hucol2 hnodup2 hcoins2 hsel hnlt
    | some vs =>
      simp only [hv]
      cases hvc : choice vs c2 with
      | none =>
        simp only [hvc]
        exact hWF2
      | some v =>
        simp only [hvc]
        exact WF_finishPull _ hut2 hreq2 hdef2 hucol2 hnodup2 hcoins2 hsel hnlt

theorem WF_pull (dir : List PonFolder) (s : ServerState) (user pon : String) (c1 c2 : Nat)
    (h : WF s.db) : WF ((pull dir s user pon c1 c2).2).db := by
  cases hcc : pullCheck { s with pondata := loadPons dir } user pon with
  | ponNotFound =>
    have heqp : pull dir s user pon c1 c2 =
        (PullOutcome.noResult, { s with pondata := loadPons dir }) := by
      simp only [pull, hcc]
    rw [heqp]
    exact h
  | userNotFound =>
    have heqp : pull dir s user pon c1 c2 =
        (PullOutcome.noResult, { s with pondata := loadPons dir }) := by
      simp only [pull, hcc]
    rw [heqp]
    exact h
  | insufficient =>
    have heqp : pull dir s user pon c1 c2 =
        (PullOutcome.noResult, { s with pondata := loadPons dir }) := by
      simp only [pull, hcc]
    rw [heqp]
    exact h
  | typeErr =>
    have heqp : pull dir s user pon c1 c2 =
        (PullOutcome.err, { s with pondata := loadPons dir }) := by
      simp only [pull, hcc]
    rw [heqp]
    exact h
  | pass p coins =>
    have heqp : pull dir s user pon c1 c2 =
        pullWrite { s with pondata := loadPons dir } user pon p c1 c2 := by
      simp only [pull, hcc]
    rw [heqp]
    obtain ⟨hpq, ut0, hut0, hsel0, hnlt⟩ := pullCheck_pass hcc
    obtain ⟨ut, hut, hreq, hdef, hucol, hnodup, hcoins⟩ := h
    have hsame : ut0 = ut := Option.some.inj (hut0.symm.trans hut)
    subst hsame
    obtain ⟨s2, -, ht1, hframe2, heq2⟩ :=
      pullWrite_split { s with pondata := loadPons dir } user pon p c1 c2
    rw [heq2]
    by_cases huser : user = "users"
    · subst huser
      have ht1b : s2.db.getTable "users" =
          some (ddlTable ((s.db.getTable "users").getD invSchema) pon) := ht1
      rw [hut] at ht1b
      simp only [Option.getD_some] at ht1b
      refine WF_pullDraw c1 c2 ht1b ((ddlTable_required ut0 pon).trans hreq)
        (by rw [ddlTable_defaults]; exact hdef)
        (ddlTable_cols_sub ut0 pon _ hucol)
        (by rw [ddlTable_rows]; exact hnodup)
        (fun r hr => hcoins r (by rw [ddlTable_rows] at hr; exact hr))
        (by rw [selectCoins_ddlTable]; exact hsel0) hnlt
    · have hut2 : s2.db.getTable "users" = some ut0 :=
        (hframe2 "users" (fun hh => huser hh.symm)).trans hut
      exact WF_pullDraw c1 c2 hut2 hreq hdef hucol hnodup hcoins hsel0 hnlt

theorem WF_applyEvent (s : ServerState) (e : Event) (h : WF s.db) :
    WF ((applyEvent s e).db) := by
  cases e with
  | reg u pw ph th => exact WF_register s.db u pw ph th h
  | login u tok => exact WF_login s.db u tok h
  | pullReq dir u p c1 c2 => exact WF_pull dir s u p c1 c2 h

theorem WF_runEvents (es : List Event) :
    ∀ s : ServerState, WF s.db → WF ((runEvents s es).db) := by
  induction es with
  | nil => exact fun s h => h
  | cons e rest ih => exact fun s h => ih (applyEvent s e) (WF_applyEvent s e h)

theorem WF_initState (dir0 : List PonFolder) : WF ((initState dir0).db) := by
  refine ⟨usersSchema,
    (by decide : (init_db (DB.mk [])).getTable "users" = some usersSchema),
    rfl, by decide, by decide, by simp [usersSchema], ?_⟩
  intro r hr n hn
  exact absurd hr (List.not_mem_nil r)

end InvariantLemmas

section Claims

/-- C1 (counterexample): a registered user (alice, balance 3) and a catalog
pon (empty, cost 1 ≤ 3) where the pull nevertheless raises instead of
succeeding, because the pon's cards list is empty; the balance is not
debited. -/
theorem c1_empty_cards_counterexample :
    (ServerState.mk [] db0).coinsOf "alice" = some (Val.i 3) ∧
    lookupKey "empty" (loadPons dirAll) = some ponEmpty ∧
    ponEmpty.costD = 1 ∧
    (pull dirAll (ServerState.mk [] db0) "alice" "empty" 0 0).1 = PullOutcome.err ∧
    ((pull dirAll (ServerState.mk [] db0) "alice" "empty" 0 0).2).coinsOf "alice" =
      some (Val.i 3) := by decide

/-- C1 (amended): for a registered user and a catalog pon, if the balance
is at least the pon's cost, the pon's card list is nonempty, every card's
varieties list (when present) is nonempty, and the table named by the
username (when it already exists) carries no NOT NULL constraint (so in
particular the username is not the literal name users), then the pull
succeeds: it returns a drawn reference, appends exactly one row holding
that reference to the user's inventory ledger for that pon, and debits
exactly the cost, so a balance equal to the cost ends at 0. -/
theorem c1_pull_sufficient_balance_succeeds {dir : List PonFolder} {s : ServerState}
    {user pon : String} {p : Pon} {ut : Table} {coins : Int} (c1 c2 : Nat)
    (hp : lookupKey pon (loadPons dir) = some p)
    (hut : s.db.getTable "users" = some ut)
    (hc : selectCoins ut user = some (Val.i coins))
    (hge : p.costD ≤ coins)
    (husers : user ≠ "users")
    (hreq : ∀ t, s.db.getTable user = some t → t.required = [])
    (hcards : p.cards ≠ [])
    (hvars : ∀ c ∈ p.cards, ∀ vs, c.varieties = some vs → vs ≠ []) :
    ∃ ref row,
      (pull dir s user pon c1 c2).1 = PullOutcome.ok ref ∧
      ((pull dir s user pon c1 c2).2).invRows user = s.invRows user ++ [row] ∧
      lookupKey pon row = some (Val.s ref) ∧
      ((pull dir s user pon c1 c2).2).coinsOf user = some (Val.i (coins - p.costD)) := by
  obtain ⟨ref, row, h1, h2, h3, h4, -⟩ :=
    pull_ok c1 c2 hp hut hc (not_lt.mpr hge) husers hreq hcards hvars
  exact ⟨ref, row, h1, h2, h3, h4⟩

/-- C1 (witness): alice with balance 3 pulls the basic pon of cost 1 and
ends with balance 2 after gaining one inventory row. -/
theorem c1_witness :
    ∃ ref row,
      (pull dirAll (ServerState.mk [] db0) "alice" "basic" 0 0).1 = PullOutcome.ok ref ∧
      ((pull dirAll (ServerState.mk [] db0) "alice" "basic" 0 0).2).invRows "alice" =
        (ServerState.mk [] db0).invRows "alice" ++ [row] ∧
      lookupKey "basic" row = some (Val.s ref) ∧
      ((pull dirAll (ServerState.mk [] db0) "alice" "basic" 0 0).2).coinsOf "alice" =
        some (Val.i (3 - ponBasic.costD)) :=
  @c1_pull_sufficient_balance_succeeds dirAll (ServerState.mk [] db0) "alice" "basic"
    ponBasic usersT0 3 0 0 (by decide) (by decide) (by decide) (by decide) (by decide)
    (fun t h => by
      rw [show (ServerState.mk [] db0).db.getTable "alice" = none from by decide] at h
      exact Option.noConfusion h)
    (by decide)
    (fun c hc vs hvs => by
      rw [show ponBasic.cards = [{ id := "c1", varieties := none }] from rfl,
        List.mem_singleton] at hc
      subst hc
      exact Option.noConfusion hvs)

/-- C2: whenever the pull returns the undifferentiated failure value None
(unknown pon id, missing user row, or balance below cost), the database,
and with it every balance and the entire inventory ledger, is exactly
unchanged. -/
theorem c2_pull_failure_preserves_db (dir : List PonFolder) (s : ServerState)
    (user pon : String) (c1 c2 : Nat)
    (h : (pull dir s user pon c1 c2).1 = PullOutcome.noResult) :
    ((pull dir s user pon c1 c2).2).db = s.db := by
  cases hcc : pullCheck { s with pondata := loadPons dir } user pon with
  | pass p coins =>
    have heqp : pull dir s user pon c1 c2 =
        pullWrite { s with pondata := loadPons dir } user pon p c1 c2 := by
      simp only [pull, hcc]
    rw [heqp] at h
    exact absurd h (pullWrite_ne_noResult _ _ _ _ _ _)
  | typeErr =>
    have heqp : pull dir s user pon c1 c2 =
        (PullOutcome.err, { s with pondata := loadPons dir }) := by
      simp only [pull, hcc]
    rw [heqp] at h
    exact PullOutcome.noConfusion h
  | ponNotFound =>
    have heqp : pull dir s user pon c1 c2 =
        (PullOutcome.noResult, { s with pondata := loadPons dir }) := by
      simp only [pull, hcc]
    rw [heqp]
  | userNotFound =>
    have heqp : pull dir s user pon c1 c2 =
        (PullOutcome.noResult, { s with pondata := loadPons dir }) := by
      simp only [pull, hcc]
    rw [heqp]
  | insufficient =>
    have heqp : pull dir s user pon c1 c2 =
        (PullOutcome.noResult, { s with pondata := loadPons dir }) := by
      simp only [pull, hcc]
    rw [heqp]

/-- C2 (witness): pulling an unknown pon id leaves the database exactly as
it was. -/
theorem c2_witness :
    ((pull dirAll (ServerState.mk [] db0) "alice" "nosuch" 0 0).2).db = db0 :=
  c2_pull_failure_preserves_db dirAll (ServerState.mk [] db0) "alice" "nosuch" 0 0 (by decide)

/-- C4 (counterexample): the three failure causes are not distinguishable
from pull's result: an unknown pon id, a missing user record, and an
insufficient balance all return the very same Python value None. -/
theorem c4_counterexample :
    (pull dirAll (ServerState.mk [] db0) "alice" "nosuch" 0 0).1 = PullOutcome.noResult ∧
    (pull dirAll (ServerState.mk [] db0) "ghost" "basic" 0 0).1 = PullOutcome.noResult ∧
    (pull dirAll (ServerState.mk [] db0) "alice" "costly" 0 0).1 = PullOutcome.noResult ∧
    (pull dirAll (ServerState.mk [] db0) "alice" "nosuch" 0 0).1 =
      (pull dirAll (ServerState.mk [] db0) "ghost" "basic" 0 0).1 ∧
    (pull dirAll (ServerState.mk [] db0) "ghost" "basic" 0 0).1 =
      (pull dirAll (ServerState.mk [] db0) "alice" "costly" 0 0).1 := by decide

/-- C4 (amended): pull either returns a drawn reference or fails with the
single undifferentiated value None for all three causes: an unknown pon id,
a missing user row, and a balance below the cost each produce the same
None result, so the caller cannot tell the failure causes apart. -/
theorem c4_failure_causes_collapse (dir : List PonFolder) (s : ServerState)
    (user pon : String) (c1 c2 : Nat) :
    (lookupKey pon (loadPons dir) = none →
      (pull dir s user pon c1 c2).1 = PullOutcome.noResult) ∧
    (∀ p ut, lookupKey pon (loadPons dir) = some p → s.db.getTable "users" = some ut →
      selectCoins ut user = none → (pull dir s user pon c1 c2).1 = PullOutcome.noResult) ∧
    (∀ p ut coins, lookupKey pon (loadPons dir) = some p →
      s.db.getTable "users" = some ut → selectCoins ut user = some (Val.i coins) →
      coins < p.costD → (pull dir s user pon c1 c2).1 = PullOutcome.noResult) := by
  refine ⟨fun hnone => ?_, fun p ut hp hut hcn => ?_, fun p ut coins hp hut hc hlt => ?_⟩
  · have hcc : pullCheck { s with pondata := loadPons dir } user pon =
        CheckResult.ponNotFound := by
      simp only [pullCheck, hnone]
    simp only [pull, hcc]
  · have hcc : pullCheck { s with pondata := loadPons dir } user pon =
        CheckResult.userNotFound := by
      simp only [pullCheck, hp, hut, hcn]
    simp only [pull, hcc]
  · have hcc : pullCheck { s with pondata := loadPons dir } user pon =
        CheckResult.insufficient := by
      simp only [pullCheck, hp, hut, hc, if_pos hlt]
    simp only [pull, hcc]

/-- C4 (witness): the amended theorem applied to the three concrete failing
pulls of the counterexample state. -/
theorem c4_witness :
    (pull dirAll (ServerState.mk [] db0) "alice" "nosuch" 1 1).1 = PullOutcome.noResult ∧
    (pull dirAll (ServerState.mk [] db0) "ghost" "basic" 1 1).1 = PullOutcome.noResult ∧
    (pull dirAll (ServerState.mk [] db0) "alice" "costly" 1 1).1 = PullOutcome.noResult :=
  ⟨(c4_failure_causes_collapse dirAll (ServerState.mk [] db0) "alice" "nosuch" 1 1).1
      (by decide),
   (c4_failure_causes_collapse dirAll (ServerState.mk [] db0) "ghost" "basic" 1 1).2.1
      ponBasic usersT0 (by decide) (by decide) (by decide),
   (c4_failure_causes_collapse dirAll (ServerState.mk [] db0) "alice" "costly" 1 1).2.2
      ponCostly usersT0 3 (by decide) (by decide) (by decide) (by decide)⟩

/-- C5: every successful pull draws its reference from the catalog entry of
the pulled pon: the drawn card belongs to that pon's card list, and the
reference is the card id, or cardId/varietyId with the variety drawn from
that card's varieties list. -/
theorem c5_drawn_reference_wellformed {dir : List PonFolder} {s : ServerState}
    {user pon : String} {c1 c2 : Nat} {p : Pon} {ref : String} {s2 : ServerState}
    (hp : lookupKey pon (loadPons dir) = some p)
    (h : pull dir s user pon c1 c2 = (PullOutcome.ok ref, s2)) :
    ∃ card ∈ p.cards,
      (card.varieties = none ∧ ref = card.id) ∨
      ∃ vs v, card.varieties = some vs ∧ v ∈ vs ∧ ref = card.id ++ "/" ++ v.id := by
  cases hcc : pullCheck { s with pondata := loadPons dir } user pon with
  | pass q coins =>
    obtain ⟨hq, -⟩ := pullCheck_pass hcc
    have hq2 : q = p := Option.some.inj (hq.symm.trans hp)
    subst hq2
    have heqp : pull dir s user pon c1 c2 =
        pullWrite { s with pondata := loadPons dir } user pon q c1 c2 := by
      simp only [pull, hcc]
    obtain ⟨s2x, -, -, -, heq2⟩ :=
      pullWrite_split { s with pondata := loadPons dir } user pon q c1 c2
    rw [heqp, heq2] at h
    exact pullDraw_ok_shape h
  | typeErr =>
    have heqp : pull dir s user pon c1 c2 =
        (PullOutcome.err, { s with pondata := loadPons dir }) := by
      simp only [pull, hcc]
    rw [heqp] at h
    exact absurd (congrArg Prod.fst h) (by simp)
  | ponNotFound =>
    have heqp : pull dir s user pon c1 c2 =
        (PullOutcome.noResult, { s with pondata := loadPons dir }) := by
      simp only [pull, hcc]
    rw [heqp] at h
    exact absurd (congrArg Prod.fst h) (by simp)
  | userNotFound =>
    have heqp : pull dir s user pon c1 c2 =
        (PullOutcome.noResult, { s with pondata := loadPons dir }) := by
      simp only [pull, hcc]
    rw [heqp] at h
    exact absurd (congrArg Prod.fst h) (by simp)
  | insufficient =>
    have heqp : pull dir s user pon c1 c2 =
        (PullOutcome.noResult, { s with pondata := loadPons dir }) := by
      simp only [pull, hcc]
    rw [heqp] at h
    exact absurd (congrArg Prod.fst h) (by simp)

/-- C5 (witness): the successful pull of the variety pon yields a card of
that pon, here with the reference cv/v1. -/
theorem c5_witness :
    ∃ card ∈ ponVar.cards,
      (card.varieties = none ∧ "cv/v1" = card.id) ∨
      ∃ vs v, card.varieties = some vs ∧ v ∈ vs ∧ "cv/v1" = card.id ++ "/" ++ v.id :=
  @c5_drawn_reference_wellformed dirAll (ServerState.mk [] db0) "alice" "varpon" 0 0
    ponVar "cv/v1" (pull dirAll (ServerState.mk [] db0) "alice" "varpon" 0 0).2
    (by decide) (by rfl)

/-- C6: the concurrent double spend of the unserialized pull: with alice
holding 3 coins and the race pon costing 3, both requests' phase-one
balance checks pass on the same state before either phase-two write runs;
both writes then commit, both pulls return a card, and the final balance is
the negative value -3, contradicting the claimed per-user serialization
(exactly one success, balance never negative). -/
theorem c6_concurrent_double_spend :
    pullCheck sStart "alice" "race" = CheckResult.pass ponRace 3 ∧
    (pullWrite sStart "alice" "race" ponRace 0 0).1 = PullOutcome.ok "c1" ∧
    ((pullWrite (pullWrite sStart "alice" "race" ponRace 0 0).2 "alice" "race"
        ponRace 0 0).1 = PullOutcome.ok "c1") ∧
    ((pullWrite (pullWrite sStart "alice" "race" ponRace 0 0).2 "alice" "race"
        ponRace 0 0).2).coinsOf "alice" = some (Val.i (-3)) := by decide

/-- C7 (counterexample): the catalog is not read-only after the startup
load: a pull re-scans the pons directory and rebuilds the in-memory
mapping, so a pon present in the startup catalog is not found when the
directory has changed, and the mapping is mutated. -/
theorem c7_counterexample :
    lookupKey "basic" sStart.pondata = some ponBasic ∧
    (pull [] sStart "alice" "basic" 0 0).1 = PullOutcome.noResult ∧
    (pull [] sStart "alice" "basic" 0 0).2.pondata = [] ∧
    sStart.pondata ≠ [] := by decide

/-- C7 (amended): every pull re-runs the catalog loader over the pons
directory it is given and stores the rebuilt mapping in the in-memory
catalog: after any pull the catalog equals the fresh scan of the
directory, not the mapping loaded at startup. -/
theorem c7_pull_rescans_catalog (dir : List PonFolder) (s : ServerState) (user pon : String)
    (c1 c2 : Nat) : ((pull dir s user pon c1 c2).2).pondata = loadPons dir := by
  cases hcc : pullCheck { s with pondata := loadPons dir } user pon with
  | pass p coins =>
    have heqp : pull dir s user pon c1 c2 =
        pullWrite { s with pondata := loadPons dir } user pon p c1 c2 := by
      simp only [pull, hcc]
    rw [heqp, pullWrite_pondata]
  | typeErr =>
    have heqp : pull dir s user pon c1 c2 =
        (PullOutcome.err, { s with pondata := loadPons dir }) := by
      simp only [pull, hcc]
    rw [heqp]
  | ponNotFound =>
    have heqp : pull dir s user pon c1 c2 =
        (PullOutcome.noResult, { s with pondata := loadPons dir }) := by
      simp only [pull, hcc]
    rw [heqp]
  | userNotFound =>
    have heqp : pull dir s user pon c1 c2 =
        (PullOutcome.noResult, { s with pondata := loadPons dir }) := by
      simp only [pull, hcc]
    rw [heqp]
  | insufficient =>
    have heqp : pull dir s user pon c1 c2 =
        (PullOutcome.noResult, { s with pondata := loadPons dir }) := by
      simp only [pull, hcc]
    rw [heqp]

/-- C9: the per-user inventory table is named by the raw username with no
reservation check: registration accepts the username users; for any other
username the pull writes only the tables named by the username and by
users (the debit); and for the username users the CREATE TABLE is a no-op
on the credentials table, the ALTER TABLE adds the pon's column to the
credentials table itself, and the INSERT then fails on its NOT NULL
columns. -/
theorem c9_table_named_raw_username :
    validUsername "users" = true ∧
    (∀ dir s user pon c1 c2 name, name ≠ user → name ≠ "users" →
      ((pull dir s user pon c1 c2).2).db.getTable name = s.db.getTable name) ∧
    (∀ dir s pon c1 c2 p ut coins,
      lookupKey pon (loadPons dir) = some p →
      s.db.getTable "users" = some ut →
      selectCoins ut "users" = some (Val.i coins) →
      ¬ coins < p.costD →
      ut.required = ["username", "password_hash", "token"] →
      pon ∉ ut.cols →
      (pull dir s "users" pon c1 c2).1 = PullOutcome.err ∧
      ((pull dir s "users" pon c1 c2).2).db.getTable "users" =
        some { ut with cols := ut.cols ++ [pon] }) := by
  refine ⟨by decide, fun dir s user pon c1 c2 name h1 h2 => ?_,
    fun dir s pon c1 c2 p ut coins hp hut hc hge hreqU hmem => ?_⟩
  · cases hcc : pullCheck { s with pondata := loadPons dir } user pon with
    | pass p coins =>
      have heqp : pull dir s user pon c1 c2 =
          pullWrite { s with pondata := loadPons dir } user pon p c1 c2 := by
        simp only [pull, hcc]
      rw [heqp]
      exact pullWrite_frame h1 h2 _ _ _ _ _
    | typeErr =>
      have heqp : pull dir s user pon c1 c2 =
          (PullOutcome.err, { s with pondata := loadPons dir }) := by
        simp only [pull, hcc]
      rw [heqp]
    | ponNotFound =>
      have heqp : pull dir s user pon c1 c2 =
          (PullOutcome.noResult, { s with pondata := loadPons dir }) := by
        simp only [pull, hcc]
      rw [heqp]
    | userNotFound =>
      have heqp : pull dir s user pon c1 c2 =
          (PullOutcome.noResult, { s with pondata := loadPons dir }) := by
        simp only [pull, hcc]
      rw [heqp]
    | insufficient =>
      have heqp : pull dir s user pon c1 c2 =
          (PullOutcome.noResult, { s with pondata := loadPons dir }) := by
        simp only [pull, hcc]
      rw [heqp]
  · have hcc : pullCheck { s with pondata := loadPons dir } "users" pon =
        CheckResult.pass p coins := pullCheck_eq_pass hp hut hc hge
    have heqp : pull dir s "users" pon c1 c2 =
        pullWrite { s with pondata := loadPons dir } "users" pon p c1 c2 := by
      simp only [pull, hcc]
    obtain ⟨s2, -, ht1, -, heq2⟩ :=
      pullWrite_split { s with pondata := loadPons dir } "users" pon p c1 c2
    have ht1b : s2.db.getTable "users" = some { ut with cols := ut.cols ++ [pon] } := by
      rw [ht1, hut]
      have : ddlTable ut pon = { ut with cols := ut.cols ++ [pon] } := by
        unfold ddlTable
        rw [if_neg hmem]
      simp only [Option.getD_some, this]
    have hdraw : pullDraw s2 "users" pon p c1 c2 = (PullOutcome.err, s2) :=
      pullDraw_users_err ht1b hreqU
    rw [heqp, heq2, hdraw]
    exact ⟨rfl, ht1b⟩

/-- C9 (witness): registering the username users succeeds validation, and a
pull by that user adds the pon's column to the shared users credentials
table itself. -/
theorem c9_witness :
    validUsername "users" = true ∧
    (pull dirAll (ServerState.mk [] dbU) "users" "basic" 0 0).1 = PullOutcome.err ∧
    ((pull dirAll (ServerState.mk [] dbU) "users" "basic" 0 0).2).db.getTable "users" =
      some { usersTU with cols := usersTU.cols ++ ["basic"] } := by
  have h := (c9_table_named_raw_username).2.2 dirAll (ServerState.mk [] dbU) "basic" 0 0
    ponBasic usersTU 3 (by decide) (by decide) (by decide) (by decide) (by decide) (by decide)
  exact ⟨(c9_table_named_raw_username).1, h.1, h.2⟩

/-- C10: a registered user with sufficient balance pulling a catalog pon
whose cards list is empty gets no drawn reference and no debit (the draw
over the empty list raises), and the failure strikes only after the
per-user inventory table and the pon's column exist. -/
theorem c10_empty_cards_no_debit {dir : List PonFolder} {s : ServerState}
    {user pon : String} {p : Pon} {ut : Table} {coins : Int} (c1 c2 : Nat)
    (hp : lookupKey pon (loadPons dir) = some p)
    (hut : s.db.getTable "users" = some ut)
    (hc : selectCoins ut user = some (Val.i coins))
    (hge : ¬ coins < p.costD)
    (hempty : p.cards = []) :
    (pull dir s user pon c1 c2).1 = PullOutcome.err ∧
    ((pull dir s user pon c1 c2).2).coinsOf user = s.coinsOf user ∧
    ((pull dir s user pon c1 c2).2).invRows user = s.invRows user ∧
    ∃ t, ((pull dir s user pon c1 c2).2).db.getTable user = some t ∧ pon ∈ t.cols := by
  have hcc : pullCheck { s with pondata := loadPons dir } user pon =
      CheckResult.pass p coins := pullCheck_eq_pass hp hut hc hge
  have heqp : pull dir s user pon c1 c2 =
      pullWrite { s with pondata := loadPons dir } user pon p c1 c2 := by
    simp only [pull, hcc]
  obtain ⟨s2, -, ht1, hframe, heq2⟩ :=
    pullWrite_split { s with pondata := loadPons dir } user pon p c1 c2
  have hchoice : choice p.cards c1 = none := by
    rw [hempty]
    rfl
  have hdraw : pullDraw s2 user pon p c1 c2 = (PullOutcome.err, s2) := by
    unfold pullDraw
    simp only [hchoice]
  rw [heqp, heq2, hdraw]
  refine ⟨rfl, ?_, ?_, ddlTable ((s.db.getTable user).getD invSchema) pon, ht1,
    ddlTable_mem_cols _ _⟩
  · by_cases huser : user = "users"
    · subst huser
      simp only [ServerState.coinsOf, ht1, hut, Option.getD_some, selectCoins_ddlTable]
    · unfold ServerState.coinsOf
      rw [hframe "users" (Ne.symm huser)]
  · simp only [ServerState.invRows, ht1]
    rw [ddlTable_rows]
    cases hg : s.db.getTable user with
    | some t => simp [hg]
    | none => simp [hg, invSchema]

/-- C10 (witness): alice with balance 3 pulling the empty pon: the pull
raises, the balance stays 3, the inventory rows stay empty, and the table
named alice now exists with the empty column. -/
theorem c10_witness :
    (pull dirAll (ServerState.mk [] db0) "alice" "empty" 2 2).1 = PullOutcome.err ∧
    ((pull dirAll (ServerState.mk [] db0) "alice" "empty" 2 2).2).coinsOf "alice" =
      (ServerState.mk [] db0).coinsOf "alice" ∧
    ((pull dirAll (ServerState.mk [] db0) "alice" "empty" 2 2).2).invRows "alice" =
      (ServerState.mk [] db0).invRows "alice" := by
  have h := @c10_empty_cards_no_debit dirAll (ServerState.mk [] db0) "alice" "empty"
    ponEmpty usersT0 3 2 2 (by decide) (by decide) (by decide) (by decide) (by decide)
  exact ⟨h.1, h.2.1, h.2.2.1⟩

/-- C8: after a successful login of a user stores the hash of the freshly
generated token in the user's single token slot, whoami on the new token
identifies that user, and no other token (in particular any token from an
earlier login) identifies them any more; hypotheses: the user has a row,
the fresh token matches no stored hash (it is fresh and random), and the
user's rows carry a token cell. -/
theorem c8_single_active_token {db : DB} {u tnew : String} {ut : Table}
    (hut : db.getTable "users" = some ut)
    (hrow : ∃ r ∈ ut.rows, rowHasUser u r = true)
    (hfresh : ∀ r ∈ ut.rows, tokenMatches tnew r = false)
    (hkey : ∀ r ∈ ut.rows, rowHasUser u r = true → (lookupKey "token" r).isSome = true) :
    (∀ ut2, (generate_token db u tnew).getTable "users" = some ut2 →
      ∀ r ∈ ut2.rows, lookupKey "username" r = some (Val.s u) →
        lookupKey "token" r = some (Val.s (hashpw tnew))) ∧
    identify_user (generate_token db u tnew) tnew = some u ∧
    ∀ t, t ≠ tnew → identify_user (generate_token db u tnew) t ≠ some u := by
  have hgen : generate_token db u tnew =
      db.setTable "users" { ut with rows := ut.rows.map (tokenUpdateRow u tnew) } := by
    simp only [generate_token, hut]
  have hget : (generate_token db u tnew).getTable "users" =
      some { ut with rows := ut.rows.map (tokenUpdateRow u tnew) } := by
    rw [hgen]
    exact getTable_setTable_self _ _ _
  refine ⟨?_, ?_, ?_⟩
  · intro ut2 hut2 r hr hu
    rw [hget] at hut2
    cases hut2
    obtain ⟨r0, hr0, hfr0⟩ := List.mem_map.mp hr
    by_cases hm : rowHasUser u r0 = true
    · obtain ⟨v0, hv0⟩ := Option.isSome_iff_exists.mp (hkey r0 hr0 hm)
      rw [← hfr0, tokenUpdateRow_pos hm, lookupKey_setField_eq, hv0]
      rfl
    · rw [← hfr0, tokenUpdateRow_neg hm] at hu
      exact absurd (rowHasUser_iff.mpr hu) hm
  · obtain ⟨r2, hfind, hr2u⟩ := find_fresh_token ut.rows hfresh hkey hrow
    simp only [identify_user, hget, hfind, hr2u]
  · intro t hne hcontra
    simp only [identify_user, hget] at hcontra
    cases hfind : (ut.rows.map (tokenUpdateRow u tnew)).find? (tokenMatches t) with
    | none =>
      simp only [hfind] at hcontra
      exact Option.noConfusion hcontra
    | some r2 =>
      simp only [hfind] at hcontra
      have hner := find_other_token hne ut.rows r2 hfind
      cases hu : lookupKey "username" r2 with
      | none =>
        simp only [hu] at hcontra
        exact Option.noConfusion hcontra
      | some v =>
        cases v with
        | null =>
          simp only [hu] at hcontra
          exact Option.noConfusion hcontra
        | i n =>
          simp only [hu] at hcontra
          exact Option.noConfusion hcontra
        | s w =>
          simp only [hu] at hcontra
          refine hner ?_
          rw [hu, Option.some.inj hcontra]

/-- C8 (witness): alice logs in again with the fresh token tC; whoami on tC
returns alice while her earlier token tA no longer identifies her. -/
theorem c8_witness :
    identify_user (generate_token dbAuth "alice" "tC") "tC" = some "alice" ∧
    identify_user (generate_token dbAuth "alice" "tC") "tA" ≠ some "alice" := by
  have h := @c8_single_active_token dbAuth "alice" "tC" usersTAuth (by decide)
    (by decide) (by decide) (by decide)
  exact ⟨h.2.1, h.2.2 "tA" (by decide)⟩

/-- C3: in every state reachable from startup by registrations (default
balance 3), logins, and pull transactions, every coin balance stored in the
users table is nonnegative; the pull's debit check preceding the debit
preserves the invariant. -/
theorem c3_balance_nonneg (dir0 : List PonFolder) (es : List Event) :
    ∀ r ∈ usersRows ((runEvents (initState dir0) es).db), ∀ n : Int,
      lookupKey "coins" r = some (Val.i n) → 0 ≤ n := by
  obtain ⟨ut, hut, -, -, -, -, hcoins⟩ :=
    WF_runEvents es (initState dir0) (WF_initState dir0)
  intro r hr n hn
  simp only [usersRows, hut] at hr
  exact hcoins r hr n hn

/-- C3 (witness): after registering alice and one pull of cost 1, alice's
row holds 2 coins, and the reachability theorem instantiates to 0 ≤ 2. -/
theorem c3_witness :
    traceRow ∈ usersRows ((runEvents (initState dirAll) esTrace).db) ∧
    lookupKey "coins" traceRow = some (Val.i 2) ∧
    (0 : Int) ≤ 2 :=
  ⟨by decide, by decide, c3_balance_nonneg dirAll esTrace traceRow (by decide) 2 (by decide)⟩

end Claims

end Coinpon
